import Mathlib

/-!
Shallow embedding of the dbt-tui core (run-output parsing, lineage graph,
layer assignment, job polling) and proofs about it.

Rust strings are modelled as lists of characters; Rust byte indices become
character indices (every index the code computes lands on an ASCII character,
so the order and comparison of indices is preserved).  An operation that can
panic in Rust (out-of-bounds slicing) is modelled as returning none.
-/

namespace DbtTui

/-- Rust strings, modelled as character lists. -/
abbrev Str := List Char

/-- Does the list start with the given pattern?  Models the prefix test used
by substring search. -/
def strStartsWith : Str → Str → Bool
  | _, [] => true
  | [], _ :: _ => false
  | a :: as, b :: bs => a == b && strStartsWith as bs

/-- Index of the first occurrence of a pattern: models Rust str::find for a
string pattern. -/
def strFind (pat : Str) : Str → Option Nat
  | [] => if strStartsWith [] pat then some 0 else none
  | a :: t =>
    if strStartsWith (a :: t) pat then some 0
    else (strFind pat t).map (· + 1)

/-- Models Rust str::contains. -/
def strContains (l pat : Str) : Bool :=
  (strFind pat l).isSome

/-- Index of the last occurrence of a character: models Rust str::rfind for a
char pattern. -/
def strRfindChar : Str → Char → Option Nat
  | [], _ => none
  | a :: t, c =>
    match strRfindChar t c with
    | some i => some (i + 1)
    | none => if a == c then some 0 else none

/-- Index of the last occurrence of a pattern: models Rust str::rfind for a
string pattern. -/
def strRfindSub (pat : Str) : Str → Option Nat
  | [] => if strStartsWith [] pat then some 0 else none
  | a :: t =>
    match strRfindSub pat t with
    | some i => some (i + 1)
    | none => if strStartsWith (a :: t) pat then some 0 else none

/-- Models Rust str::trim (whitespace stripped from both ends). -/
def strTrim (l : Str) : Str :=
  ((l.dropWhile Char.isWhitespace).reverse.dropWhile Char.isWhitespace).reverse

/-- Models Rust slicing s[a..b], which panics when a > b (the only way the
indices produced in this codebase can be out of range); the panic is
modelled as none. -/
def sliceRange (l : Str) (a b : Nat) : Option Str :=
  if a ≤ b ∧ b ≤ l.length then some ((l.drop a).take (b - a)) else none

/-- Worker for splitWs: the accumulator holds the current word, reversed. -/
def splitWsAux : Str → Str → List Str
  | [], acc => if acc = [] then [] else [acc.reverse]
  | a :: t, acc =>
    if a.isWhitespace then
      if acc = [] then splitWsAux t [] else acc.reverse :: splitWsAux t []
    else splitWsAux t (a :: acc)

/-- Models Rust str::split_whitespace (maximal nonempty runs of
non-whitespace characters). -/
def splitWs (l : Str) : List Str := splitWsAux l []

/-- Models Rust u32::from_str: optional plus sign, then decimal digits, value
within u32 range. -/
def parseU32 (l : Str) : Option Nat :=
  let l' := match l with
    | '+' :: t => t
    | _ => l
  if l' = [] then none
  else if l'.all Char.isDigit then
    let v := l'.foldl (fun acc c => acc * 10 + (c.toNat - '0'.toNat)) 0
    if v < 2 ^ 32 then some v else none
  else none

/-- Numeric value of a digit string. -/
def digitsVal (l : Str) : Nat :=
  l.foldl (fun acc c => acc * 10 + (c.toNat - '0'.toNat)) 0

/-- Models Rust f64::from_str on the plain decimal notation the tool emits
(optional sign, integer digits, optional fractional digits).  The parsed
value is represented by the exact decimal rational; binary-float rounding is
not modelled, and exponent/inf/nan forms (never produced as durations) are
rejected. -/
def parseF64 (l : Str) : Option ℚ :=
  match l with
  | '-' :: t => (parseF64Core t).map (fun q => -q)
  | '+' :: t => parseF64Core t
  | _ => parseF64Core l
where
  parseF64Core (l : Str) : Option ℚ :=
    let intPart := l.takeWhile Char.isDigit
    let rest := l.dropWhile Char.isDigit
    match rest with
    | [] => if intPart = [] then none else some (digitsVal intPart)
    | '.' :: frac =>
      if frac.all Char.isDigit ∧ (intPart ≠ [] ∨ frac ≠ []) then
        some ((digitsVal intPart : ℚ) + digitsVal frac / 10 ^ frac.length)
      else none
    | _ => none

/-- Status of a dbt run (source: src/model/run.rs, RunStatus). -/
inductive RunStatus where
  | Running
  | Success
  | Failed
deriving DecidableEq

/-- View mode for run output display (source: RunOutputViewMode). -/
inductive RunOutputViewMode where
  | Raw
  | Graphical
deriving DecidableEq

/-- Status of an individual model run (source: ModelRunStatus). -/
inductive ModelRunStatus where
  | Running
  | Success
  | Failed
  | Skipped
deriving DecidableEq

/-- Information about a single model execution (source: ModelRun).  An f64
duration is represented by the exact rational parsed from the log text. -/
structure ModelRun where
  name : Str
  model_type : Str
  status : ModelRunStatus
  duration : Option ℚ
  result_info : Option Str
  step : Option Str
  upstream_deps : List Str
  layer : Nat
deriving DecidableEq

/-- Output from a dbt run command (source: RunOutput). -/
structure RunOutput where
  command : Str
  status : RunStatus
  output : Str
  view_mode : RunOutputViewMode
  model_runs : List ModelRun
deriving DecidableEq

/-- Source: RunOutput::new. -/
def RunOutput.new (command : Str) : RunOutput :=
  { command := command
    status := .Running
    output := []
    view_mode := .Graphical
    model_runs := [] }

/-- Source: RunOutput::extract_step.  Scans the whitespace-split words for a
digit-word "of" digit-word triple. -/
def extract_step (line : Str) : Option Str :=
  stepScan (splitWs line)
where
  stepScan : List Str → Option Str
    | a :: b :: c :: rest =>
      if b = "of".data ∧ (parseU32 a).isSome ∧ (parseU32 c).isSome then
        some (a ++ " of ".data ++ c)
      else stepScan (b :: c :: rest)
    | _ => none

/-- Source: RunOutput::extract_model_type. -/
def extract_model_type (line : Str) : Str :=
  if strContains line " view ".data then "view".data
  else if strContains line " table ".data then "table".data
  else if strContains line " incremental ".data then "incremental".data
  else if strContains line " seed ".data then "seed".data
  else if strContains line " test ".data then "test".data
  else "model".data

/-- Source: RunOutput::extract_model_name.  The name is the text between the
" model " marker and the first following " ..." or " [", trimmed; empty
means the line is not a lifecycle line. -/
def extract_model_name (line : Str) : Option Str :=
  match strFind " model ".data line with
  | none => none
  | some model_pos =>
    let after_model := line.drop (model_pos + (" model ".data).length)
    let end_pos :=
      match strFind " ...".data after_model with
      | some i => i
      | none =>
        match strFind " [".data after_model with
        | some i => i
        | none => after_model.length
    let name := strTrim (after_model.take end_pos)
    if name = [] then none else some name

/-- Source: RunOutput::parse_duration. -/
def parse_duration (s : Str) : Option ℚ :=
  let s := strTrim s
  match s.getLast? with
  | some 's' => parseF64 s.dropLast
  | _ => parseF64 s

/-- Source: RunOutput::parse_start_line. -/
def parse_start_line (line : Str) : Option ModelRun :=
  let step := extract_step line
  let model_type := extract_model_type line
  match extract_model_name line with
  | none => none
  | some name =>
    some
      { name := name
        model_type := model_type
        status := .Running
        duration := none
        result_info := none
        step := step
        upstream_deps := []
        layer := 0 }

/-- The status assignment at the top of RunOutput::parse_completion_line. -/
def completion_status (line : Str) (m : ModelRun) : ModelRun :=
  if strContains line " OK ".data then { m with status := .Success }
  else if strContains line " ERROR ".data then { m with status := .Failed }
  else if strContains line " SKIP ".data then { m with status := .Skipped }
  else m

/-- The trailing-bracket handling of RunOutput::parse_completion_line.
Returns none when the Rust code would panic (slice with start past end,
which happens when the last opening bracket sits after the last closing
bracket). -/
def completion_bracket (line : Str) (m : ModelRun) : Option ModelRun :=
  match strRfindChar line '[' with
  | none => some m
  | some bracket_start =>
    match strRfindChar line ']' with
    | none => some m
    | some bracket_end =>
      match sliceRange line (bracket_start + 1) bracket_end with
      | none => none
      | some bracket_content =>
        match strRfindSub " in ".data bracket_content with
        | some in_pos =>
          some
            { (match parse_duration (bracket_content.drop (in_pos + 4)) with
                | some d => { m with duration := some d }
                | none => m) with
              result_info := some (bracket_content.take in_pos) }
        | none => some { m with result_info := some bracket_content }

/-- Apply a fallible mutation to the first list entry with the given name,
leaving the rest unchanged: models obtaining an iter-mut find reference and
mutating through it. -/
def mutateFirst (f : ModelRun → Option ModelRun) (name : Str) :
    List ModelRun → Option (List ModelRun)
  | [] => some []
  | m :: rest =>
    if m.name == name then (f m).map (fun m' => m' :: rest)
    else (mutateFirst f name rest).map (fun rest' => m :: rest')

/-- Source: RunOutput::parse_completion_line.  Locates (or defensively
creates) the record for the line's model name, then updates its status and
bracket-derived fields.  none models a panic. -/
def parse_completion_line (line : Str) (model_runs : List ModelRun) :
    Option (List ModelRun) :=
  match extract_model_name line with
  | none => some model_runs
  | some name =>
    mutateFirst (fun m => completion_bracket line (completion_status line m)) name
      (if model_runs.any (fun m => m.name == name) then model_runs
       else
         model_runs ++
           [{ name := name
              model_type := extract_model_type line
              status := .Running
              duration := none
              result_info := none
              step := extract_step line
              upstream_deps := []
              layer := 0 }])

/-- Source: RunOutput::parse_output_line.  none models a panic. -/
def RunOutput.parse_output_line (ro : RunOutput) (line : Str) : Option RunOutput :=
  if strContains line " START ".data && strContains line " model ".data then
    some
      (match parse_start_line line with
      | some model_run =>
        if ro.model_runs.any (fun m => m.name == model_run.name) then ro
        else { ro with model_runs := ro.model_runs ++ [model_run] }
      | none => ro)
  else if (strContains line " OK ".data || strContains line " ERROR ".data ||
      strContains line " SKIP ".data) && strContains line " model ".data then
    (parse_completion_line line ro.model_runs).map
      (fun runs => { ro with model_runs := runs })
  else some ro

/-- Feed a sequence of raw lines through parse_output_line, stopping at a
panic. -/
def parseLines (ro : RunOutput) : List Str → Option RunOutput
  | [] => some ro
  | l :: rest =>
    match ro.parse_output_line l with
    | none => none
    | some ro' => parseLines ro' rest

/-- Dependency information for a node (source: src/model/node.rs, DependsOn). -/
structure DependsOn where
  nodes : List Str
deriving DecidableEq

/-- A dbt node (source: src/model/node.rs, Node).  Only the fields read by
the functions embedded here are carried; the remaining fields
(compiled_code, config, columns, ...) are never read by the lineage graph
or the layer computation. -/
structure Node where
  unique_id : Str
  name : Str
  resource_type : Str
  schema : Str
  depends_on : DependsOn
deriving DecidableEq

/-- A node of the lineage graph (source: src/model/lineage.rs, LineageNode). -/
structure LineageNode where
  name : Str
  resource_type : Str
deriving DecidableEq

/-- Source: LineageNode::from_node. -/
def LineageNode.from_node (node : Node) : LineageNode :=
  { name := node.name, resource_type := node.resource_type }

/-- Source: LineageNode::from_unique_id. -/
def LineageNode.from_unique_id (unique_id : Str) : LineageNode :=
  let parts := unique_id.splitOn '.'
  if 3 ≤ parts.length then
    let resource_type := parts.getD 0 []
    let name :=
      if resource_type = "source".data ∧ 4 ≤ parts.length then parts.getD 3 []
      else List.intercalate ['.'] (parts.drop 2)
    { name := name, resource_type := resource_type }
  else { name := unique_id, resource_type := "unknown".data }

/-- Insert-or-overwrite into an association list: models HashMap::insert
(the key's position in the list is irrelevant, only lookup is used). -/
def alInsert {α : Type} (m : List (Str × α)) (k : Str) (v : α) : List (Str × α) :=
  if m.any (fun p => p.1 == k) then
    m.map (fun p => if p.1 == k then (p.1, v) else p)
  else m ++ [(k, v)]

/-- Append to the list stored under a key, creating it when absent: models
HashMap::entry(k).or_default().push(v). -/
def alPush {α : Type} (m : List (Str × List α)) (k : Str) (v : α) : List (Str × List α) :=
  if m.any (fun p => p.1 == k) then
    m.map (fun p => if p.1 == k then (p.1, p.2 ++ [v]) else p)
  else m ++ [(k, [v])]

/-- Lineage graph containing all dependency relationships (source:
LineageGraph; the two HashMaps become association lists). -/
structure LineageGraph where
  upstream : List (Str × List LineageNode)
  downstream : List (Str × List LineageNode)

/-- Source: LineageGraph::build.  First pass records each node's declared
upstream ids verbatim; second pass appends the dependent node to the
downstream entry of each of its dependencies. -/
def LineageGraph.build (nodes : List Node) : LineageGraph :=
  let upstream :=
    nodes.foldl
      (fun acc node =>
        alInsert acc node.unique_id (node.depends_on.nodes.map LineageNode.from_unique_id))
      []
  let downstream :=
    nodes.foldl
      (fun acc node =>
        node.depends_on.nodes.foldl
          (fun acc2 dep_id => alPush acc2 dep_id (LineageNode.from_node node))
          acc)
      []
  { upstream := upstream, downstream := downstream }

/-- Source: LineageGraph::get_upstream (missing ids give an empty list). -/
def LineageGraph.get_upstream (g : LineageGraph) (unique_id : Str) : List LineageNode :=
  (g.upstream.lookup unique_id).getD []

/-- Source: LineageGraph::get_downstream (missing ids give an empty list). -/
def LineageGraph.get_downstream (g : LineageGraph) (unique_id : Str) : List LineageNode :=
  (g.downstream.lookup unique_id).getD []

/-- The display name used to match run-output names against manifest nodes:
format "schema.name" (source: RunOutput::compute_layers). -/
def displayName (n : Node) : Str := n.schema ++ ['.'] ++ n.name

/-- The node_by_display_name HashMap of RunOutput::compute_layers: built by
collect, so a later node with the same display name overwrites an earlier
one; modelled by looking the key up in the reversed pair list. -/
def node_by_display_name (all_nodes : List Node) (key : Str) : Option Node :=
  ((all_nodes.map (fun n => (displayName n, n))).reverse).lookup key

/-- The set of model names in the current run (HashSet modelled as a
deduplicated list; only membership is ever used). -/
def runModelNames (ro : RunOutput) : List Str :=
  (ro.model_runs.map (fun m => m.name)).dedup

/-- The in-run upstream display names of one run-output name: resolve the
name to a manifest node, then keep only those dependencies whose display
name is also in the run (source: the deps_in_run loop body of
RunOutput::compute_layers). -/
def upstreamDepsFor (all_nodes : List Node) (run_model_names : List Str) (name : Str) :
    List Str :=
  match node_by_display_name all_nodes name with
  | none => []
  | some node =>
    node.depends_on.nodes.filterMap (fun dep_unique_id =>
      match all_nodes.find? (fun n => n.unique_id == dep_unique_id) with
      | none => none
      | some dep_node =>
        let dep_display_name := displayName dep_node
        if run_model_names.contains dep_display_name then some dep_display_name
        else none)

/-- The deps_in_run map of RunOutput::compute_layers. -/
def deps_in_run (ro : RunOutput) (all_nodes : List Node) : List (Str × List Str) :=
  ro.model_runs.foldl
    (fun acc m => alInsert acc m.name (upstreamDepsFor all_nodes (runModelNames ro) m.name))
    []

/-- One readiness test of the layering loop: all of the name's in-run
dependencies already have an assigned layer. -/
def depsAssigned (deps_map : List (Str × List Str)) (layers : List (Str × Nat))
    (name : Str) : Bool :=
  ((deps_map.lookup name).getD []).all (fun dep => (layers.lookup dep).isSome)

/-- The names a pass of the layering loop collects: every remaining name
whose dependencies are all assigned (the assigned_this_layer vector of one
pass; the collection only reads the layer map, so it is a filter). -/
def readyNames (deps_map : List (Str × List Str)) (layers : List (Str × Nat))
    (remaining : List Str) : List Str :=
  remaining.filter (depsAssigned deps_map layers)

/-- The body of the iterative layer-assignment loop of
RunOutput::compute_layers, with an explicit pass budget so that the
recursion is structural and kernel-evaluable: each pass assigns the current
layer to every remaining name whose dependencies are all assigned; a pass
that assigns nothing flushes the remainder at the current layer and
stops. -/
def layerLoopGo (deps_map : List (Str × List Str)) :
    Nat → List Str → List (Str × Nat) → Nat → List (Str × Nat)
  | 0, _, layers, _ => layers
  | fuel + 1, remaining, layers, current_layer =>
    if remaining.isEmpty then layers
    else
      if (readyNames deps_map layers remaining).isEmpty then
        layers ++ remaining.map (fun m => (m, current_layer))
      else
        layerLoopGo deps_map fuel
          (remaining.filter (fun m => !((readyNames deps_map layers remaining).contains m)))
          (layers ++ (readyNames deps_map layers remaining).map (fun m => (m, current_layer)))
          (current_layer + 1)

/-- The layer-assignment loop.  Every productive pass removes at least one
remaining name and an unproductive pass stops the loop, so a budget of one
pass per remaining name plus one final pass is never exhausted (the budget
only makes the structural recursion explicit; see
layerLoopGo_lookup_isSome for the resulting totality of assignment). -/
def layerLoop (deps_map : List (Str × List Str)) (remaining : List Str)
    (layers : List (Str × Nat)) (current_layer : Nat) : List (Str × Nat) :=
  layerLoopGo deps_map (remaining.length + 1) remaining layers current_layer

/-- The model_layers map of RunOutput::compute_layers: start with every
run name unassigned, the layer map empty and the layer counter at 0. -/
def model_layers (ro : RunOutput) (all_nodes : List Node) : List (Str × Nat) :=
  layerLoop (deps_in_run ro all_nodes) (runModelNames ro) [] 0

/-- The final write-back of RunOutput::compute_layers applied to one model:
set the layer and the in-run upstream list when the maps have an entry for
the model's name. -/
def layerUpdate (layers : List (Str × Nat)) (deps_map : List (Str × List Str))
    (m : ModelRun) : ModelRun :=
  let m1 :=
    match layers.lookup m.name with
    | some layer => { m with layer := layer }
    | none => m
  match deps_map.lookup m.name with
  | some deps => { m1 with upstream_deps := deps }
  | none => m1

/-- Source: RunOutput::compute_layers. -/
def RunOutput.compute_layers (ro : RunOutput) (all_nodes : List Node) : RunOutput :=
  if ro.model_runs.isEmpty then ro
  else
    { ro with
      model_runs :=
        ro.model_runs.map
          (layerUpdate (model_layers ro all_nodes) (deps_in_run ro all_nodes)) }

/-- A character allowed in the parameter body of an ANSI escape sequence
(the 0-9-or-semicolon starred class of the ANSI_REGEX pattern). -/
def isAnsiBody (c : Char) : Bool := c.isDigit || c == ';'

/-- Consume the body-then-letter part of an ANSI escape sequence from the
front of the list; on success return the remainder together with a proof
that it is shorter (the proof feeds termination of the stripper).  The body
class and the letter class are disjoint, so the greedy regex match is
forced and needs no backtracking. -/
def dropAnsiTail : (l : Str) → Option { t : Str // t.length < l.length }
  | [] => none
  | c :: t =>
    if isAnsiBody c then
      (dropAnsiTail t).map (fun s => ⟨s.val, Nat.lt_succ_of_lt s.property⟩)
    else if c.isAlpha then some ⟨t, Nat.lt_succ_self _⟩
    else none

/-- Source: strip_ansi_codes in src/services/job_runner.rs.  Removes every
match of the ANSI escape regex (ESC, opening bracket, digits or semicolons,
one ASCII letter), scanning for leftmost non-overlapping matches as
Regex::replace_all does. -/
def strip_ansi_codes : Str → Str
  | [] => []
  | '\x1b' :: '[' :: rest =>
    (match dropAnsiTail rest with
    | some tail => strip_ansi_codes tail.val
    | none => '\x1b' :: strip_ansi_codes ('[' :: rest))
  | c :: rest => c :: strip_ansi_codes rest
termination_by l => l.length
decreasing_by
  · have := tail.property
    simp only [List.length_cons]
    omega
  · simp only [List.length_cons]
    omega
  · simp only [List.length_cons]
    omega

/-- Message types sent from background job threads (source: JobMessage). -/
inductive JobMessage where
  | Output (line : Str)
  | Completed (exit_code : Option Int)
  | Error (msg : Str)

/-- What try_recv reports once the buffered messages are drained. -/
inductive ChanTail where
  | Empty
  | Disconnected

/-- A background job as seen by one poll call: the messages currently
buffered in the channel, and whether the channel then reports empty or
disconnected (source: BackgroundJob; the receiver is modelled by its
observable drain sequence). -/
structure BackgroundJob where
  msgs : List JobMessage
  tail : ChanTail

/-- Job runner service (source: src/services/job_runner.rs, JobRunner). -/
structure JobRunner where
  job : Option BackgroundJob

/-- The drain loop of JobRunner::poll.  none models a panic inside line
parsing. -/
def pollDrain : List JobMessage → ChanTail → Bool → RunOutput → Option (Bool × RunOutput)
  | [], .Empty, had_updates, ro => some (had_updates, ro)
  | [], .Disconnected, had_updates, ro =>
    some (had_updates,
      if ro.status = .Running then { ro with status := .Failed } else ro)
  | .Output line :: rest, t, _, ro =>
    let clean_line := strip_ansi_codes line
    let ro1 := { ro with output := ro.output ++ clean_line ++ ['\n'] }
    match ro1.parse_output_line clean_line with
    | none => none
    | some ro2 => pollDrain rest t true ro2
  | .Completed exit_code :: rest, t, _, ro =>
    pollDrain rest t true
      { ro with status := if exit_code = some 0 then .Success else .Failed }
  | .Error err :: rest, t, _, ro =>
    pollDrain rest t true
      { ro with
        output := ro.output ++ "\nError: ".data ++ err ++ ['\n']
        status := .Failed }

/-- Source: JobRunner::poll.  With no active job it returns false at once;
otherwise it drains the channel. -/
def JobRunner.poll (runner : JobRunner) (run_output : RunOutput) :
    Option (Bool × RunOutput) :=
  match runner.job with
  | none => some (false, run_output)
  | some job => pollDrain job.msgs job.tail false run_output

/-- The deps_in_run map as a function of the run's name list alone (the
fold only reads each model's name, so this is the same map; used to reason
about recomputation). -/
def depsOfNames (names : List Str) (all_nodes : List Node) : List (Str × List Str) :=
  names.foldl (fun acc nm => alInsert acc nm (upstreamDepsFor all_nodes names.dedup nm)) []

/-- The model_layers map as a function of the run's name list alone. -/
def layersOfNames (names : List Str) (all_nodes : List Node) : List (Str × Nat) :=
  layerLoop (depsOfNames names all_nodes) names.dedup [] 0

/-- The name list of a run's unit table. -/
def namesOf (ro : RunOutput) : List Str := ro.model_runs.map (fun m => m.name)

/-! Concrete inputs used by the claim theorems. -/

/-- A unit record as created by a plain start line (concrete test input). -/
def simpleRun (name : Str) : ModelRun :=
  { name := name
    model_type := "view".data
    status := .Running
    duration := none
    result_info := none
    step := none
    upstream_deps := []
    layer := 0 }

/-- A manifest node with the fields the layer computation reads (concrete
test input). -/
def simpleNode (unique_id name schema : Str) (deps : List Str) : Node :=
  { unique_id := unique_id
    name := name
    resource_type := "model".data
    schema := schema
    depends_on := { nodes := deps } }

/-- The claim C1 start line. -/
def c1_start_line : Str :=
  "1 of 1 START sql view model staging.stg_customers ... [RUN]".data

/-- The claim C1 completion line. -/
def c1_ok_line : Str :=
  "1 of 1 OK created sql view model staging.stg_customers ... [view model staging.stg_customers in 0.42s]".data

/-- The unit record the two C1 lines actually produce. -/
def c1_expected : ModelRun :=
  { name := "staging.stg_customers".data
    model_type := "view".data
    status := .Success
    duration := some (21 / 50)
    result_info := some "view model staging.stg_customers".data
    step := some "1 of 1".data
    upstream_deps := []
    layer := 0 }

/-- A completion-pattern line whose last opening bracket sits after its last
closing bracket: the completion parser slices with start past end here. -/
def c2_panic_line : Str := " OK  model a ] [".data

/-- Single node for the C3 counterexample: y declares a dependency on
"model.a.b". -/
def c3_node : Node :=
  simpleNode "model.t.y".data "y".data "s".data ["model.a.b".data]

/-- Nodes of a linear chain a -> b -> c, display names s.a, s.b, s.c. -/
def chainNodes : List Node :=
  [simpleNode "m.p.a".data "a".data "s".data [],
   simpleNode "m.p.b".data "b".data "s".data ["m.p.a".data],
   simpleNode "m.p.c".data "c".data "s".data ["m.p.b".data]]

/-- A run containing all three chain units. -/
def roChain : RunOutput :=
  { RunOutput.new "dbt run".data with
    model_runs := [simpleRun "s.a".data, simpleRun "s.b".data, simpleRun "s.c".data] }

/-- A run containing only b and c from the chain. -/
def roPartial : RunOutput :=
  { RunOutput.new "dbt run".data with
    model_runs := [simpleRun "s.b".data, simpleRun "s.c".data] }

/-- Two nodes depending on each other (a deliberate cycle). -/
def cycNodes : List Node :=
  [simpleNode "m.p.a".data "a".data "s".data ["m.p.b".data],
   simpleNode "m.p.b".data "b".data "s".data ["m.p.a".data]]

/-- A run containing both units of the cycle. -/
def roCyc : RunOutput :=
  { RunOutput.new "dbt run".data with
    model_runs := [simpleRun "s.a".data, simpleRun "s.b".data] }

/-- A start line for the duplicate-start experiment. -/
def c8_start_line : Str := "1 of 1 START sql view model s.a ... [RUN]".data

/-- The run state after feeding the C8 start line twice. -/
def c8_result : RunOutput :=
  { RunOutput.new "dbt run".data with
    model_runs :=
      [{ simpleRun "s.a".data with step := some "1 of 1".data }] }

/-- A completion line with the success token and no prior start. -/
def c9_ok_line : Str := "1 of 3 OK created sql view model s.a ...".data

/-- A completion line with the error token and no prior start. -/
def c9_error_line : Str := "2 of 3 ERROR creating sql table model s.b ...".data

/-- A completion line with the skip token and no prior start. -/
def c9_skip_line : Str := "3 of 3 SKIP relation sql model s.c ...".data

/-! Claim theorems and supporting lemmas. -/

set_option maxRecDepth 40000

/-- C1 (counterexample): the spec's end-to-end example is wrong about the
result annotation.  Feeding the two raw lines does not produce the
annotation "created sql view model staging.stg_customers": the parser takes
the bracket content before the " in " token, which is
"view model staging.stg_customers". -/
theorem c1_annotation_counterexample :
    (parseLines (RunOutput.new "dbt run".data) [c1_start_line, c1_ok_line]).map
        (fun ro => ro.model_runs.map (fun m => m.result_info)) ≠
      some [some "created sql view model staging.stg_customers".data] := by
  decide

/-- C1 (amended): feeding the two raw lines produces exactly one UnitRun
with name "staging.stg_customers", type tag "view", status Succeeded,
duration 0.42 and result annotation "view model staging.stg_customers". -/
theorem c1_end_to_end_example :
    parseLines (RunOutput.new "dbt run".data) [c1_start_line, c1_ok_line] =
      some { RunOutput.new "dbt run".data with model_runs := [c1_expected] } := by
  with_unfolding_all decide

/-- C2 (refutation): parse_output_line is not total.  On a completion
pattern line whose last opening bracket sits after its last closing
bracket, the Rust code slices the line with a start index past the end
index, which panics; the embedding returns none exactly there. -/
theorem c2_parse_output_line_panics :
    (RunOutput.new "dbt run".data).parse_output_line c2_panic_line = none := by
  decide

/-- C5: for the linear chain a -> b -> c wholly within one run, the layers
are exactly 0, 1, 2 and each unit's in-run upstream list holds exactly its
direct predecessor. -/
theorem c5_linear_chain_layers :
    (roChain.compute_layers chainNodes).model_runs =
      [{ simpleRun "s.a".data with layer := 0, upstream_deps := [] },
       { simpleRun "s.b".data with layer := 1, upstream_deps := ["s.a".data] },
       { simpleRun "s.c".data with layer := 2, upstream_deps := ["s.b".data] }] := by
  decide

/-- C6: for a run containing only b and c of the chain a -> b -> c, the
out-of-run dependency a is dropped: b gets layer 0 with an empty in-run
upstream list and c gets layer 1 with exactly b as upstream. -/
theorem c6_partial_run_layers :
    (roPartial.compute_layers chainNodes).model_runs =
      [{ simpleRun "s.b".data with layer := 0, upstream_deps := [] },
       { simpleRun "s.c".data with layer := 1, upstream_deps := ["s.b".data] }] := by
  decide

/-- C9: feeding only a completion line (no prior start) yields exactly one
UnitRun whose final status matches the outcome token: Succeeded for the
success token, Failed for the error token, Skipped for the skip token. -/
theorem c9_completion_without_start :
    (RunOutput.new "dbt run".data).parse_output_line c9_ok_line =
        some { RunOutput.new "dbt run".data with
          model_runs := [{ simpleRun "s.a".data with
            status := .Success, step := some "1 of 3".data }] } ∧
      (RunOutput.new "dbt run".data).parse_output_line c9_error_line =
        some { RunOutput.new "dbt run".data with
          model_runs := [{ simpleRun "s.b".data with
            model_type := "table".data, status := .Failed, step := some "2 of 3".data }] } ∧
      (RunOutput.new "dbt run".data).parse_output_line c9_skip_line =
        some { RunOutput.new "dbt run".data with
          model_runs := [{ simpleRun "s.c".data with
            model_type := "model".data, status := .Skipped, step := some "3 of 3".data }] } := by
  refine ⟨by decide, by decide, by decide⟩

/-- C10: polling with no active job reports no updates and returns the run
execution unchanged in every field. -/
theorem c10_poll_no_job (runner : JobRunner) (run_output : RunOutput)
    (h : runner.job = none) :
    runner.poll run_output = some (false, run_output) := by
  unfold JobRunner.poll
  rw [h]

/-- Witness for C10 at a concrete runner and run execution. -/
theorem c10_poll_no_job_witness :
    JobRunner.poll { job := none } (RunOutput.new "dbt run".data) =
      some (false, RunOutput.new "dbt run".data) :=
  c10_poll_no_job { job := none } (RunOutput.new "dbt run".data) rfl

/-- Str equality transported to its boolean test. -/
theorem beq_true_of_eq {a b : Str} (h : a = b) : (a == b) = true := by
  simp [h]

/-- Str inequality transported to its boolean test. -/
theorem beq_false_of_ne {a b : Str} (h : a ≠ b) : (a == b) = false := by
  simpa [beq_eq_false_iff_ne] using h

/-- Lookup skips a head pair whose key differs. -/
theorem lookup_cons_ne {α : Type} (k k1 : Str) (v1 : α) (rest : List (Str × α))
    (h : k ≠ k1) : ((k1, v1) :: rest).lookup k = rest.lookup k := by
  rw [List.lookup_cons, beq_false_of_ne h]

/-- Overwriting every pair carrying the key makes lookup return the new
value, provided some pair carries the key. -/
theorem lookup_map_overwrite {α : Type} (m : List (Str × α)) (k : Str) (v : α)
    (hany : m.any (fun p => p.1 == k) = true) :
    (m.map (fun p => if p.1 == k then (p.1, v) else p)).lookup k = some v := by
  induction m with
  | nil => simp at hany
  | cons p t ih =>
    obtain ⟨k1, v1⟩ := p
    simp only [List.any_cons] at hany
    simp only [List.map_cons]
    rcases eq_or_ne k1 k with rfl | hne
    · simp only [beq_self_eq_true, if_true]
      exact List.lookup_cons_self
    · simp only [beq_false_of_ne hne, Bool.false_eq_true, if_false]
      rw [lookup_cons_ne k k1 v1 _ (Ne.symm hne)]
      rw [beq_false_of_ne hne, Bool.false_or] at hany
      exact ih hany

/-- Overwriting pairs carrying one key leaves lookups of other keys
unchanged. -/
theorem lookup_map_overwrite_ne {α : Type} (m : List (Str × α)) (k : Str) (v : α)
    (k' : Str) (hne : k' ≠ k) :
    (m.map (fun p => if p.1 == k then (p.1, v) else p)).lookup k' = m.lookup k' := by
  induction m with
  | nil => rfl
  | cons p t ih =>
    obtain ⟨k1, v1⟩ := p
    simp only [List.map_cons]
    rcases eq_or_ne k1 k with rfl | hne1
    · rw [show (if (k1 == k1) = true then ((k1 : Str), v) else (k1, v1)) = (k1, v) by
        simp]
      rw [lookup_cons_ne k' k1 v _ hne, lookup_cons_ne k' k1 v1 _ hne]
      exact ih
    · simp only [beq_false_of_ne hne1, Bool.false_eq_true, if_false]
      rcases eq_or_ne k' k1 with rfl | hne2
      · rw [List.lookup_cons_self, List.lookup_cons_self]
      · rw [lookup_cons_ne k' k1 v1 _ hne2, lookup_cons_ne k' k1 v1 _ hne2]
        exact ih

/-- A key is absent from a list none of whose pairs carry it. -/
theorem lookup_eq_none_of_any_false {α : Type} (m : List (Str × α)) (k : Str)
    (hany : m.any (fun p => p.1 == k) = false) : m.lookup k = none := by
  rw [List.lookup_eq_none_iff]
  intro p hp
  have h := List.any_eq_false.mp hany p hp
  simp only [bne_iff_ne, ne_eq]
  intro heq
  exact h (beq_true_of_eq heq.symm)

/-- alInsert then looking up the inserted key yields the inserted value. -/
theorem lookup_alInsert_self {α : Type} (m : List (Str × α)) (k : Str) (v : α) :
    (alInsert m k v).lookup k = some v := by
  unfold alInsert
  by_cases hany : m.any (fun p => p.1 == k) = true
  · simp only [hany, if_true]
    exact lookup_map_overwrite m k v hany
  · simp only [hany, Bool.false_eq_true, if_false]
    rw [List.lookup_append,
      lookup_eq_none_of_any_false m k (Bool.not_eq_true _ ▸ hany),
      Option.none_or, List.lookup_cons_self]

/-- alInsert leaves lookups of other keys unchanged. -/
theorem lookup_alInsert_ne {α : Type} (m : List (Str × α)) (k : Str) (v : α)
    (k' : Str) (hne : k' ≠ k) :
    (alInsert m k v).lookup k' = m.lookup k' := by
  unfold alInsert
  by_cases hany : m.any (fun p => p.1 == k) = true
  · simp only [hany, if_true]
    exact lookup_map_overwrite_ne m k v k' hne
  · simp only [hany, Bool.false_eq_true, if_false]
    rw [List.lookup_append, lookup_cons_ne k' k v [] hne]
    cases h : m.lookup k' <;> rfl

/-- A fold of alInsert calls whose keys all differ from the queried key
leaves that lookup unchanged. -/
theorem lookup_foldl_alInsert_of_ne {β α : Type} (kf : β → Str) (vf : β → α) :
    ∀ (l : List β) (init : List (Str × α)) (key : Str),
      (∀ b ∈ l, kf b ≠ key) →
      (l.foldl (fun acc b => alInsert acc (kf b) (vf b)) init).lookup key =
        init.lookup key := by
  intro l
  induction l with
  | nil => intro init key _; rfl
  | cons x t ih =>
    intro init key hne
    simp only [List.foldl_cons]
    rw [ih _ key (fun b hb => hne b (List.mem_cons_of_mem _ hb)),
      lookup_alInsert_ne _ _ _ _ (Ne.symm (hne x (List.mem_cons_self _ _)))]

/-- With pairwise distinct keys, a fold of alInsert calls maps each listed
element's key to that element's value. -/
theorem lookup_foldl_alInsert_self {β α : Type} (kf : β → Str) (vf : β → α) :
    ∀ (l : List β) (init : List (Str × α)) (a : β),
      a ∈ l → (l.map kf).Nodup →
      (l.foldl (fun acc b => alInsert acc (kf b) (vf b)) init).lookup (kf a) =
        some (vf a) := by
  intro l
  induction l with
  | nil => intro _ _ h; cases h
  | cons x t ih =>
    intro init a ha hnd
    simp only [List.map_cons, List.nodup_cons] at hnd
    obtain ⟨hnotin, hndt⟩ := hnd
    simp only [List.foldl_cons]
    rcases List.mem_cons.mp ha with rfl | hat
    · rw [lookup_foldl_alInsert_of_ne kf vf t _ (kf a)
        (fun b hb heq => hnotin (heq ▸ List.mem_map_of_mem kf hb))]
      exact lookup_alInsert_self _ _ _
    · exact ih _ a hat hndt

/-- Appending to every pair carrying the key: lookup sees the appended
value, provided some pair carries the key. -/
theorem lookup_map_push {α : Type} (m : List (Str × List α)) (k : Str) (v : α)
    (hany : m.any (fun p => p.1 == k) = true) :
    (m.map (fun p => if p.1 == k then (p.1, p.2 ++ [v]) else p)).lookup k =
      some (((m.lookup k).getD []) ++ [v]) := by
  induction m with
  | nil => simp at hany
  | cons p t ih =>
    obtain ⟨k1, v1⟩ := p
    simp only [List.any_cons] at hany
    simp only [List.map_cons]
    rcases eq_or_ne k1 k with rfl | hne
    · simp only [beq_self_eq_true, if_true]
      rw [List.lookup_cons_self, List.lookup_cons_self]
      rfl
    · simp only [beq_false_of_ne hne, Bool.false_eq_true, if_false]
      rw [lookup_cons_ne k k1 v1 _ (Ne.symm hne),
        lookup_cons_ne k k1 v1 _ (Ne.symm hne)]
      rw [beq_false_of_ne hne, Bool.false_or] at hany
      exact ih hany

/-- Appending to pairs carrying one key leaves lookups of other keys
unchanged. -/
theorem lookup_map_push_ne {α : Type} (m : List (Str × List α)) (k : Str) (v : α)
    (k' : Str) (hne : k' ≠ k) :
    (m.map (fun p => if p.1 == k then (p.1, p.2 ++ [v]) else p)).lookup k' =
      m.lookup k' := by
  induction m with
  | nil => rfl
  | cons p t ih =>
    obtain ⟨k1, v1⟩ := p
    simp only [List.map_cons]
    rcases eq_or_ne k1 k with rfl | hne1
    · simp only [beq_self_eq_true, if_true]
      rw [lookup_cons_ne k' k1 (v1 ++ [v]) _ hne, lookup_cons_ne k' k1 v1 _ hne]
      exact ih
    · simp only [beq_false_of_ne hne1, Bool.false_eq_true, if_false]
      rcases eq_or_ne k' k1 with rfl | hne2
      · rw [List.lookup_cons_self, List.lookup_cons_self]
      · rw [lookup_cons_ne k' k1 v1 _ hne2, lookup_cons_ne k' k1 v1 _ hne2]
        exact ih

/-- alPush appends the value at its key and invents the entry when
absent. -/
theorem lookup_alPush_self {α : Type} (m : List (Str × List α)) (k : Str) (v : α) :
    (alPush m k v).lookup k = some (((m.lookup k).getD []) ++ [v]) := by
  unfold alPush
  by_cases hany : m.any (fun p => p.1 == k) = true
  · simp only [hany, if_true]
    exact lookup_map_push m k v hany
  · simp only [hany, Bool.false_eq_true, if_false]
    rw [List.lookup_append,
      lookup_eq_none_of_any_false m k (Bool.not_eq_true _ ▸ hany),
      Option.none_or, List.lookup_cons_self]
    rfl

/-- alPush leaves lookups of other keys unchanged. -/
theorem lookup_alPush_ne {α : Type} (m : List (Str × List α)) (k : Str) (v : α)
    (k' : Str) (hne : k' ≠ k) :
    (alPush m k v).lookup k' = m.lookup k' := by
  unfold alPush
  by_cases hany : m.any (fun p => p.1 == k) = true
  · simp only [hany, if_true]
    exact lookup_map_push_ne m k v k' hne
  · simp only [hany, Bool.false_eq_true, if_false]
    rw [List.lookup_append, lookup_cons_ne k' k [v] [] hne]
    cases h : m.lookup k' <;> rfl

/-- Membership in a per-key value list survives an alPush. -/
theorem mem_lookup_alPush {α : Type} (m : List (Str × List α)) (k key : Str)
    (v x : α) (hx : x ∈ (m.lookup key).getD []) :
    x ∈ ((alPush m k v).lookup key).getD [] := by
  by_cases hk : key = k
  · subst hk
    rw [lookup_alPush_self]
    simp only [Option.getD_some]
    exact List.mem_append_left _ hx
  · rw [lookup_alPush_ne _ _ _ _ hk]
    exact hx

/-- The pushed value is in the per-key list after an alPush. -/
theorem mem_lookup_alPush_self {α : Type} (m : List (Str × List α)) (k : Str) (v : α) :
    v ∈ ((alPush m k v).lookup k).getD [] := by
  rw [lookup_alPush_self]
  simp

/-- Membership in a per-key value list survives a fold of alPush calls. -/
theorem mem_lookup_foldl_alPush {α : Type} (v : α) :
    ∀ (deps : List Str) (acc : List (Str × List α)) (key : Str) (x : α),
      x ∈ (acc.lookup key).getD [] →
      x ∈ ((deps.foldl (fun acc2 d => alPush acc2 d v) acc).lookup key).getD [] := by
  intro deps
  induction deps with
  | nil => intro _ _ _ h; exact h
  | cons d t ih =>
    intro acc key x h
    exact ih _ _ _ (mem_lookup_alPush _ _ _ _ _ h)

/-- Folding alPush of one value over a key list puts the value in every
listed key's list. -/
theorem mem_lookup_foldl_alPush_self {α : Type} (v : α) :
    ∀ (deps : List Str) (acc : List (Str × List α)) (b : Str), b ∈ deps →
      v ∈ ((deps.foldl (fun acc2 d => alPush acc2 d v) acc).lookup b).getD [] := by
  intro deps
  induction deps with
  | nil => intro _ _ h; cases h
  | cons d t ih =>
    intro acc b hb
    simp only [List.foldl_cons]
    rcases List.mem_cons.mp hb with rfl | hbt
    · exact mem_lookup_foldl_alPush v t _ b v (mem_lookup_alPush_self _ _ _)
    · exact ih _ _ hbt

/-- The dependent node's lineage entry reaches the downstream list of each
of its declared dependencies through the whole second build pass. -/
theorem mem_downstream_foldl (a : Node) (b : Str) (hb : b ∈ a.depends_on.nodes) :
    ∀ (nodes : List Node) (init : List (Str × List LineageNode)),
      a ∈ nodes ∨ LineageNode.from_node a ∈ ((init.lookup b).getD []) →
      LineageNode.from_node a ∈
        ((nodes.foldl
            (fun acc node =>
              node.depends_on.nodes.foldl
                (fun acc2 dep_id => alPush acc2 dep_id (LineageNode.from_node node)) acc)
            init).lookup b).getD [] := by
  intro nodes
  induction nodes with
  | nil =>
    intro init h
    rcases h with h | h
    · cases h
    · exact h
  | cons x t ih =>
    intro init h
    simp only [List.foldl_cons]
    rcases h with h | h
    · rcases List.mem_cons.mp h with rfl | hat
      · exact ih _ (Or.inr (mem_lookup_foldl_alPush_self _ _ _ _ hb))
      · exact ih _ (Or.inl hat)
    · exact ih _ (Or.inr (mem_lookup_foldl_alPush _ _ _ _ _ h))

/-- C3 (counterexample): the DependencyIndex symmetry invariant fails as an
iff.  The upstream lists store dependency entries reconstructed from the
dependency id alone, so the distinct id "model.c.b" produces the same entry
as the declared dependency "model.a.b": it appears in upstream-of(y) while
y does not appear in downstream-of("model.c.b"). -/
theorem c3_symmetry_counterexample :
    ¬ ((LineageNode.from_unique_id "model.c.b".data ∈
          (LineageGraph.build [c3_node]).get_upstream "model.t.y".data) ↔
        (LineageNode.from_node c3_node ∈
          (LineageGraph.build [c3_node]).get_downstream "model.c.b".data)) := by
  decide

/-- C3 (amended): for every declared edge, the dependency's id-derived
lineage entry appears in the dependent's upstream list and the dependent's
node-derived lineage entry appears in the dependency's downstream list
(unique ids assumed pairwise distinct, as manifest keys are). -/
theorem c3_edge_invariant (nodes : List Node) (a : Node) (b : Str)
    (hnd : (nodes.map (fun n => n.unique_id)).Nodup)
    (ha : a ∈ nodes) (hb : b ∈ a.depends_on.nodes) :
    LineageNode.from_unique_id b ∈ (LineageGraph.build nodes).get_upstream a.unique_id ∧
      LineageNode.from_node a ∈ (LineageGraph.build nodes).get_downstream b := by
  constructor
  · show LineageNode.from_unique_id b ∈
      ((nodes.foldl
          (fun acc node =>
            alInsert acc node.unique_id (node.depends_on.nodes.map LineageNode.from_unique_id))
          []).lookup a.unique_id).getD []
    rw [lookup_foldl_alInsert_self (fun n : Node => n.unique_id)
      (fun n : Node => n.depends_on.nodes.map LineageNode.from_unique_id) nodes [] a ha hnd]
    exact List.mem_map_of_mem _ hb
  · exact mem_downstream_foldl a b hb nodes [] (Or.inl ha)

/-- Witness for C3's amended edge invariant on a concrete two-node list. -/
theorem c3_edge_invariant_witness :
    LineageNode.from_unique_id "m.p.a".data ∈
        (LineageGraph.build chainNodes).get_upstream "m.p.b".data ∧
      LineageNode.from_node (simpleNode "m.p.b".data "b".data "s".data ["m.p.a".data]) ∈
        (LineageGraph.build chainNodes).get_downstream "m.p.a".data :=
  c3_edge_invariant chainNodes (simpleNode "m.p.b".data "b".data "s".data ["m.p.a".data])
    "m.p.a".data (by decide) (by decide) (by decide)

/-- Filtering strictly shrinks a list holding an element the predicate
rejects. -/
theorem length_filter_lt_of_not {α : Type} (q : α → Bool) :
    ∀ (l : List α) (x : α), x ∈ l → q x = false →
      (l.filter q).length < l.length := by
  intro l
  induction l with
  | nil => intro x hx; cases hx
  | cons a t ih =>
    intro x hx hq
    rcases List.mem_cons.mp hx with rfl | hxt
    · simp only [List.filter_cons, hq, Bool.false_eq_true, if_false, List.length_cons]
      exact Nat.lt_succ_of_le (List.length_filter_le _ _)
    · cases hqa : q a
      · simp only [List.filter_cons, hqa, Bool.false_eq_true, if_false, List.length_cons]
        exact Nat.lt_succ_of_lt (ih x hxt hq)
      · simp only [List.filter_cons, hqa, if_true, List.length_cons]
        exact Nat.succ_lt_succ (ih x hxt hq)

/-- A key listed in a constant-value pair list is found by lookup. -/
theorem lookup_map_pair_isSome (l : List Str) (x : Str) (c : Nat) (hx : x ∈ l) :
    ((l.map (fun m => (m, c))).lookup x).isSome := by
  rw [List.lookup_isSome_iff]
  exact ⟨(x, c), List.mem_map_of_mem _ hx, by simp⟩

/-- Every name still remaining when the layering loop starts, and every
name already assigned, carries an assigned layer when the loop stops —
whatever the dependency map says, cycles included — provided the pass
budget exceeds the number of remaining names. -/
theorem layerLoopGo_lookup_isSome (deps_map : List (Str × List Str)) :
    ∀ (fuel : Nat) (remaining : List Str) (layers : List (Str × Nat))
      (current_layer : Nat) (x : Str),
      remaining.length < fuel →
      (x ∈ remaining ∨ (layers.lookup x).isSome) →
      ((layerLoopGo deps_map fuel remaining layers current_layer).lookup x).isSome := by
  intro fuel
  induction fuel with
  | zero =>
    intro remaining _ _ _ hlen _
    exact absurd hlen (Nat.not_lt_zero _)
  | succ fuel ih =>
    intro remaining layers current_layer x hlen hx
    by_cases hrem : remaining.isEmpty
    · simp only [layerLoopGo, hrem, if_true]
      rcases hx with hx | hx
      · rw [List.isEmpty_iff] at hrem
        subst hrem
        cases hx
      · exact hx
    · by_cases hready : (readyNames deps_map layers remaining).isEmpty
      · simp only [layerLoopGo, hrem, Bool.false_eq_true, if_false, hready, if_true]
        rw [List.lookup_append]
        cases hl : layers.lookup x with
        | some v => simp
        | none =>
          rw [Option.none_or]
          rcases hx with hx | hx
          · exact lookup_map_pair_isSome remaining x current_layer hx
          · rw [hl] at hx
            cases hx
      · simp only [layerLoopGo, hrem, Bool.false_eq_true, if_false, hready]
        apply ih
        · rcases List.exists_mem_of_ne_nil _
            (by simpa using hready) with ⟨y, hy⟩
          have hyr : y ∈ remaining := (List.mem_filter.mp hy).1
          have hdec := length_filter_lt_of_not
            (fun m => !((readyNames deps_map layers remaining).contains m))
            remaining y hyr (by simp only [List.elem_iff.mpr hy, Bool.not_true])
          omega
        · rcases hx with hx | hx
          · by_cases hc : (readyNames deps_map layers remaining).contains x = true
            · right
              rw [List.lookup_append]
              cases hl : layers.lookup x with
              | some v => simp
              | none =>
                rw [Option.none_or]
                exact lookup_map_pair_isSome _ x current_layer (List.elem_iff.mp hc)
            · left
              simp only [Bool.not_eq_true] at hc
              refine List.mem_filter.mpr ⟨hx, ?_⟩
              simp only [hc, Bool.not_false]
          · right
            rw [List.lookup_append]
            cases hl : layers.lookup x with
            | some v => simp
            | none =>
              rw [hl] at hx
              cases hx

/-- C4: the layer computation terminates on every input (its loop budget is
explicit and a stuck pass flushes the remainder), and every unit in the run
ends up with an assigned layer in the model_layers map. -/
theorem c4_layer_assignment_total (ro : RunOutput) (all_nodes : List Node)
    (m : ModelRun) (hm : m ∈ ro.model_runs) :
    ((model_layers ro all_nodes).lookup m.name).isSome := by
  unfold model_layers layerLoop
  apply layerLoopGo_lookup_isSome
  · exact Nat.lt_succ_self _
  · left
    exact List.mem_dedup.mpr (List.mem_map_of_mem _ hm)

/-- Witness for C4 on the deliberately cyclic two-unit run: the theorem
applies, and the loop's flush pass indeed puts both units in layer 0. -/
theorem c4_layer_assignment_total_witness :
    simpleRun "s.a".data ∈ roCyc.model_runs ∧
      ((model_layers roCyc cycNodes).lookup (simpleRun "s.a".data).name).isSome ∧
      (roCyc.compute_layers cycNodes).model_runs.map (fun m => m.layer) = [0, 0] :=
  ⟨by decide,
    c4_layer_assignment_total roCyc cycNodes (simpleRun "s.a".data) (by decide),
    by decide⟩

/-- The layer write-back preserves each model's name. -/
theorem layerUpdate_name (layers : List (Str × Nat)) (deps_map : List (Str × List Str))
    (m : ModelRun) : (layerUpdate layers deps_map m).name = m.name := by
  unfold layerUpdate
  cases h1 : layers.lookup m.name <;> cases h2 : deps_map.lookup m.name <;> simp [h1, h2]

/-- Writing layer and upstream list twice from the same maps is the same as
writing them once. -/
theorem layerUpdate_idem (layers : List (Str × Nat)) (deps_map : List (Str × List Str))
    (m : ModelRun) :
    layerUpdate layers deps_map (layerUpdate layers deps_map m) =
      layerUpdate layers deps_map m := by
  cases h1 : layers.lookup m.name <;> cases h2 : deps_map.lookup m.name <;>
    simp [layerUpdate, h1, h2]

/-- The deps_in_run map only reads model names. -/
theorem deps_in_run_eq (ro : RunOutput) (all_nodes : List Node) :
    deps_in_run ro all_nodes = depsOfNames (namesOf ro) all_nodes := by
  unfold deps_in_run depsOfNames runModelNames namesOf
  exact (List.foldl_map (fun m : ModelRun => m.name)
    (fun acc nm =>
      alInsert acc nm
        (upstreamDepsFor all_nodes ((ro.model_runs.map (fun m => m.name)).dedup) nm))
    ro.model_runs []).symm

/-- The model_layers map only reads model names. -/
theorem model_layers_eq (ro : RunOutput) (all_nodes : List Node) :
    model_layers ro all_nodes = layersOfNames (namesOf ro) all_nodes := by
  unfold model_layers layersOfNames
  rw [deps_in_run_eq]
  rfl

/-- compute_layers on a nonempty run is a per-model map of the layer
write-back. -/
theorem compute_layers_of_ne (ro : RunOutput) (all_nodes : List Node)
    (h : ro.model_runs.isEmpty = false) :
    ro.compute_layers all_nodes =
      { ro with
        model_runs :=
          ro.model_runs.map
            (layerUpdate (model_layers ro all_nodes) (deps_in_run ro all_nodes)) } := by
  unfold RunOutput.compute_layers
  simp [h]

/-- compute_layers does not change which models are in the table or their
names. -/
theorem namesOf_compute_layers (ro : RunOutput) (all_nodes : List Node) :
    namesOf (ro.compute_layers all_nodes) = namesOf ro := by
  unfold RunOutput.compute_layers
  by_cases h : ro.model_runs.isEmpty
  · simp [h]
  · simp only [h, Bool.false_eq_true, if_false]
    unfold namesOf
    simp [List.map_map, Function.comp, layerUpdate_name]

/-- C7: ComputeLayers is idempotent — a second run with unchanged inputs
reproduces exactly the same layer numbers and in-run upstream lists (indeed
the same whole RunOutput). -/
theorem c7_compute_layers_idem (ro : RunOutput) (all_nodes : List Node) :
    (ro.compute_layers all_nodes).compute_layers all_nodes =
      ro.compute_layers all_nodes := by
  by_cases h : ro.model_runs.isEmpty
  · have h1 : ro.compute_layers all_nodes = ro := by
      unfold RunOutput.compute_layers
      simp [h]
    rw [h1, h1]
  · have hne : ro.model_runs.isEmpty = false := by simpa using h
    have hmain := compute_layers_of_ne ro all_nodes hne
    have hL : model_layers (ro.compute_layers all_nodes) all_nodes =
        model_layers ro all_nodes := by
      rw [model_layers_eq, model_layers_eq, namesOf_compute_layers]
    have hD : deps_in_run (ro.compute_layers all_nodes) all_nodes =
        deps_in_run ro all_nodes := by
      rw [deps_in_run_eq, deps_in_run_eq, namesOf_compute_layers]
    have hne2 : (ro.compute_layers all_nodes).model_runs.isEmpty = false := by
      rw [hmain]
      simpa using h
    rw [compute_layers_of_ne (ro.compute_layers all_nodes) all_nodes hne2, hL, hD, hmain]
    congr 1
    rw [List.map_map]
    apply List.map_congr_left
    intro m _
    exact layerUpdate_idem _ _ m

/-- The status update of a completion line does not touch the name. -/
theorem completion_status_name (line : Str) (m : ModelRun) :
    (completion_status line m).name = m.name := by
  unfold completion_status
  split_ifs <;> rfl

/-- The bracket handling of a completion line, when it does not panic, does
not touch the name. -/
theorem completion_bracket_name (line : Str) (m m' : ModelRun)
    (h : completion_bracket line m = some m') : m'.name = m.name := by
  have hW : ∀ (o : Option ℚ),
      (match o with
        | some d => { m with duration := some d }
        | none => m).name = m.name := by
    intro o
    cases o <;> rfl
  unfold completion_bracket at h
  split at h
  · injection h with h
    subst h
    rfl
  · split at h
    · injection h with h
      subst h
      rfl
    · split at h
      · cases h
      · split at h
        · injection h with h
          subst h
          exact hW _
        · injection h with h
          subst h
          rfl

/-- Mutating the first entry carrying a name through a name-preserving
update leaves the name list unchanged. -/
theorem mutateFirst_map_name (f : ModelRun → Option ModelRun) (name : Str)
    (hf : ∀ m m', f m = some m' → m'.name = m.name) :
    ∀ (l l' : List ModelRun), mutateFirst f name l = some l' →
      l'.map (fun m => m.name) = l.map (fun m => m.name) := by
  intro l
  induction l with
  | nil =>
    intro l' h
    unfold mutateFirst at h
    injection h with h
    subst h
    rfl
  | cons a t ih =>
    intro l' h
    unfold mutateFirst at h
    by_cases ha : (a.name == name) = true
    · rw [if_pos ha] at h
      cases hf1 : f a with
      | none => rw [hf1] at h; cases h
      | some a' =>
        rw [hf1] at h
        injection h with h
        subst h
        simp only [List.map_cons, hf _ _ hf1]
    · rw [if_neg ha] at h
      cases hm : mutateFirst f name t with
      | none => rw [hm] at h; cases h
      | some t' =>
        rw [hm] at h
        injection h with h
        subst h
        simp only [List.map_cons, ih t' hm]

/-- A name no record carries is outside the table's name list. -/
theorem not_mem_names_of_any_false (runs : List ModelRun) (name : Str)
    (h : runs.any (fun m => m.name == name) = false) :
    name ∉ runs.map (fun m => m.name) := by
  intro hmem
  rcases List.mem_map.mp hmem with ⟨m, hm, hname⟩
  exact (List.any_eq_false.mp h m hm) (beq_true_of_eq hname)

/-- Appending one fresh name keeps the name list duplicate-free. -/
theorem nodup_names_append_fresh (runs : List ModelRun) (mr : ModelRun)
    (hnd : (runs.map (fun m => m.name)).Nodup)
    (hfresh : mr.name ∉ runs.map (fun m => m.name)) :
    ((runs ++ [mr]).map (fun m => m.name)).Nodup := by
  rw [List.map_append]
  rw [List.nodup_append]
  exact ⟨hnd, List.nodup_singleton _, by
    intro x hx hx2
    simp only [List.map_cons, List.map_nil, List.mem_singleton] at hx2
    subst hx2
    exact hfresh hx⟩

/-- A completion line never duplicates a display name in the table. -/
theorem parse_completion_line_nodup (line : Str) (runs runs' : List ModelRun)
    (hnd : (runs.map (fun m => m.name)).Nodup)
    (h : parse_completion_line line runs = some runs') :
    (runs'.map (fun m => m.name)).Nodup := by
  have hf : ∀ m m',
      completion_bracket line (completion_status line m) = some m' →
      m'.name = m.name := by
    intro m m' hmm
    rw [completion_bracket_name line _ _ hmm, completion_status_name]
  unfold parse_completion_line at h
  split at h
  · injection h with h
    subst h
    exact hnd
  · rename_i name _
    by_cases hany : runs.any (fun m => m.name == name) = true
    · rw [if_pos hany] at h
      rw [mutateFirst_map_name _ _ hf _ _ h]
      exact hnd
    · rw [if_neg hany] at h
      rw [mutateFirst_map_name _ _ hf _ _ h]
      exact nodup_names_append_fresh runs _ hnd
        (not_mem_names_of_any_false runs name
          (Bool.not_eq_true _ ▸ hany))

/-- One ParseLine step never duplicates a display name in the table. -/
theorem parse_output_line_nodup (ro ro' : RunOutput) (line : Str)
    (hnd : (namesOf ro).Nodup) (h : ro.parse_output_line line = some ro') :
    (namesOf ro').Nodup := by
  unfold RunOutput.parse_output_line at h
  split at h
  · injection h with h
    subst h
    unfold namesOf
    split
    · rename_i mr _
      by_cases hany : ro.model_runs.any (fun m => m.name == mr.name) = true
      · rw [if_pos hany]
        exact hnd
      · rw [if_neg hany]
        simp only []
        exact nodup_names_append_fresh ro.model_runs mr hnd
          (not_mem_names_of_any_false ro.model_runs mr.name
            (Bool.not_eq_true _ ▸ hany))
    · exact hnd
  · split at h
    · cases hp : parse_completion_line line ro.model_runs with
      | none => rw [hp] at h; cases h
      | some runs' =>
        rw [hp] at h
        injection h with h
        subst h
        exact parse_completion_line_nodup line ro.model_runs runs' hnd hp
    · injection h with h
      subst h
      exact hnd

/-- C8: after any sequence of ParseLine calls on a fresh RunExecution that
completes without a panic, the unit table holds at most one record per
display name (the name list is duplicate-free): duplicate start lines are
ignored and completion lines mutate the existing record in place. -/
theorem c8_names_unique (cmd : Str) (lines : List Str) (ro' : RunOutput)
    (h : parseLines (RunOutput.new cmd) lines = some ro') :
    (namesOf ro').Nodup := by
  have gen : ∀ (ls : List Str) (ro1 ro2 : RunOutput), (namesOf ro1).Nodup →
      parseLines ro1 ls = some ro2 → (namesOf ro2).Nodup := by
    intro ls
    induction ls with
    | nil =>
      intro ro1 ro2 hnd hh
      unfold parseLines at hh
      injection hh with hh
      subst hh
      exact hnd
    | cons l rest ih =>
      intro ro1 ro2 hnd hh
      unfold parseLines at hh
      cases hp : ro1.parse_output_line l with
      | none => rw [hp] at hh; cases hh
      | some ro3 =>
        rw [hp] at hh
        exact ih ro3 ro2 (parse_output_line_nodup ro1 ro3 l hnd hp) hh
  exact gen lines (RunOutput.new cmd) ro' (by simp [namesOf, RunOutput.new]) h

/-- Witness for C8: a start line fed twice yields exactly one UnitRun, with
status Running, and the theorem certifies its name list duplicate-free. -/
theorem c8_names_unique_witness :
    parseLines (RunOutput.new "dbt run".data) [c8_start_line, c8_start_line] =
        some c8_result ∧
      c8_result.model_runs.map (fun m => m.status) = [.Running] ∧
      (namesOf c8_result).Nodup :=
  ⟨by decide, by decide,
    c8_names_unique "dbt run".data [c8_start_line, c8_start_line] c8_result (by decide)⟩

end DbtTui
